import Mathlib

/-!
Verification of the `redis-singleton` connection lifecycle manager and its
structured-value codec (`src/index.ts`).

The module-level state of the manager is embedded as `MState`
(`client`, `connectionPromise`, `connectionError`).  The promise object held
in `connectionPromise` is identified by a numeric id; underlying client
handles are `Client` records carrying an id and their `isOpen` flag.
Each state mutation performed by the source (the body of `connect`,
`getClient`, `disconnect`, and the four event handlers registered on the
underlying client) is translated into an explicit transition function.
Outcomes of underlying I/O (handshake, `quit`) are passed in as parameters,
since the real operations are asynchronous calls into the `redis` library.
-/

namespace RedisSingleton

/-- An underlying redis client handle: identity plus its `isOpen` flag. -/
structure Client where
  clientId : Nat
  isOpen : Bool
deriving DecidableEq

/-- The module-level singleton state of `src/index.ts`:
`let client`, `let connectionPromise`, `let connectionError`.
Errors are represented by their message strings. -/
structure MState where
  client : Option Client
  connectionPromise : Option Nat
  connectionError : Option String
deriving DecidableEq

/-- The truthiness test `client?.isOpen` used by `connect`, `getClient` and
`disconnect`. -/
def clientIsOpen (s : MState) : Bool :=
  match s.client with
  | some c => c.isOpen
  | none => false

/-- Message of the error thrown by `getClient` when a previous error is
recorded (wraps the recorded cause). -/
def unavailableMsg (cause : String) : String :=
  "Redis connection unavailable: " ++ cause

/-- Message of the error thrown by `getClient` while a connection attempt is
pending. -/
def connectingMsg : String :=
  "Redis client is currently connecting. Use `await connect()` or ensure the connection promise resolves before calling getClient."

/-- Message of the error thrown by `getClient` when never connected. -/
def notConnectedMsg : String :=
  "Redis client is not connected. Call connect() first."

/-- Message of the generic error recorded by the `end` handler. -/
def connectionClosedMsg : String :=
  "Redis connection closed."

/-- The error cases of `getClient` after the `client?.isOpen` early return
failed: `connectionError`, then `connectionPromise`, then the default. -/
def getClientFallback (s : MState) : Except String Client :=
  match s.connectionError with
  | some e => .error (unavailableMsg e)
  | none =>
    match s.connectionPromise with
    | some _ => .error connectingMsg
    | none => .error notConnectedMsg

/-- The value computed by `getClient ()`: the open client if there is one,
otherwise one of the three errors in source order. -/
def getClientResult (s : MState) : Except String Client :=
  match s.client with
  | some c => if c.isOpen then .ok c else getClientFallback s
  | none => getClientFallback s

/-- `getClient` as a state transformer: the source body contains no
assignment to any of the three module variables, so the state component is
returned unchanged. -/
def getClientCall (s : MState) : Except String Client × MState :=
  (getClientResult s, s)

/-- What a call to `connect` does before any I/O settles:
either the fast path, or sharing of the pending promise, or the creation of
a fresh attempt (new underlying client plus registered handlers). -/
inductive ConnectOutcome : Type where
  | resolvedNow : ConnectOutcome
  | pendingShared : Nat → ConnectOutcome
  | newAttempt : Nat → ConnectOutcome

/-- The synchronous part of `connect (options)`.  `freshPid` identifies the
promise object that would be created for a fresh attempt.  Only the third
branch constructs an underlying client and initiates a handshake; it clears
`connectionError` and publishes the new pending promise. -/
def connectCall (s : MState) (freshPid : Nat) : ConnectOutcome × MState :=
  if clientIsOpen s then (.resolvedNow, s)
  else
    match s.connectionPromise with
    | some pid => (.pendingShared pid, s)
    | none =>
      (.newAttempt freshPid,
        { s with connectionError := none, connectionPromise := some freshPid })

/-- The `error` event handler registered in `connect`:
records the error and resets the client reference. -/
def onErrorEvent (s : MState) (errMsg : String) : MState :=
  { s with connectionError := some errMsg, client := none }

/-- The identity-checked clearing `if (connectionPromise === promiseInstanceBeingReturned) connectionPromise = null`
that appears in the `end` handler and in the `finally` of the attempt. -/
def clearPromiseIfOwn (s : MState) (pid : Nat) : MState :=
  if s.connectionPromise = some pid then { s with connectionPromise := none } else s

/-- The `end` event handler registered in `connect`: captures
`wasConnected`, resets the client, clears the promise if it is still this
attempt's, and records the generic closed error only when previously
connected with no error already recorded. -/
def onEndEvent (s : MState) (pid : Nat) : MState :=
  let wasConnected := s.client.isSome
  let s1 := clearPromiseIfOwn { s with client := none } pid
  if wasConnected && s1.connectionError.isNone then
    { s1 with connectionError := some connectionClosedMsg }
  else s1

/-- The effect of `baseClient.connect()` succeeding: the enhanced client is
published, `connectionError` cleared, the attempt's promise resolved, and
the `finally` clears `connectionPromise` if it is still this attempt's. -/
def onConnectSuccess (s : MState) (c : Client) (pid : Nat) : MState :=
  clearPromiseIfOwn { s with client := some c, connectionError := none } pid

/-- The effect of `baseClient.connect()` failing: client cleared, failure
recorded, attempt rejected, and the `finally` clears `connectionPromise` if
it is still this attempt's. -/
def onConnectFailure (s : MState) (errMsg : String) (pid : Nat) : MState :=
  clearPromiseIfOwn { s with client := none, connectionError := some errMsg } pid

/-- Boolean test that `pat` occurs as a prefix of `hay` (on char lists). -/
def isPrefixChars : List Char → List Char → Bool
  | [], _ => true
  | _ :: _, [] => false
  | p :: ps, c :: cs => p == c && isPrefixChars ps cs

/-- Boolean substring test, the shape of JavaScript `String.includes`. -/
def includesChars (pat : List Char) : List Char → Bool
  | [] => isPrefixChars pat []
  | c :: cs => isPrefixChars pat (c :: cs) || includesChars pat cs

/-- The guard `connectionError instanceof Error && connectionError.message.includes ('disconnection')`
from the `finally` block of `disconnect`. -/
def errMentionsDisconnection (s : MState) : Bool :=
  match s.connectionError with
  | some e => includesChars "disconnection".toList e.toList
  | none => false

/-- The body of `disconnect ()`, parameterized by the outcome of
`currentClient.quit()` (only consulted when an open client exists).
The promise slot is cleared up front; on the quit path the `catch` records
the failure and rethrows it, and the `finally` runs in both the success and
the failure case, resetting the client and clearing `connectionError`
unless its message contains the substring "disconnection". -/
def disconnectCall (s : MState) (quitOutcome : Except String Unit) :
    Except String Unit × MState :=
  let wasOpen := clientIsOpen s
  let s0 : MState := { s with connectionPromise := none }
  if wasOpen then
    match quitOutcome with
    | .ok _ =>
      let s1 : MState := { s0 with client := none }
      (.ok (),
        if errMentionsDisconnection s1 then s1 else { s1 with connectionError := none })
    | .error e =>
      let s1 : MState := { s0 with connectionError := some e, client := none }
      (.error e,
        if errMentionsDisconnection s1 then s1 else { s1 with connectionError := none })
  else
    (.ok (), { s0 with client := none, connectionError := none })

theorem unavailableMsg_ne_connectingMsg (e : String) :
    unavailableMsg e ≠ connectingMsg := by
  intro h
  have h1 : ("Redis connection unavailable: ".data ++ e.data) = connectingMsg.data := by
    have := congrArg String.data h
    simpa [unavailableMsg, String.data_append] using this
  have h2 := congrArg (List.take "Redis connection unavailable: ".data.length) h1
  rw [List.take_left] at h2
  revert h2
  decide

theorem unavailableMsg_ne_notConnectedMsg (e : String) :
    unavailableMsg e ≠ notConnectedMsg := by
  intro h
  have h1 : ("Redis connection unavailable: ".data ++ e.data) = notConnectedMsg.data := by
    have := congrArg String.data h
    simpa [unavailableMsg, String.data_append] using this
  have h2 := congrArg (List.take "Redis connection unavailable: ".data.length) h1
  rw [List.take_left] at h2
  revert h2
  decide

/-- C1: `getClient` reflects the lifecycle state in a fixed priority order:
an open active client is returned; otherwise a recorded last error yields
the "connection unavailable" error wrapping that cause; otherwise a pending
attempt yields the "still connecting" error; otherwise the "not connected"
error.  The four guarding conditions partition the state space and the four
outcomes are pairwise distinct, so exactly one outcome occurs per state. -/
theorem getClient_lifecycle_priority (s : MState) :
    (∀ c, s.client = some c → c.isOpen = true → getClientResult s = .ok c) ∧
    (clientIsOpen s = false → ∀ e, s.connectionError = some e →
      getClientResult s = .error (unavailableMsg e)) ∧
    (clientIsOpen s = false → s.connectionError = none →
      ∀ p, s.connectionPromise = some p → getClientResult s = .error connectingMsg) ∧
    (clientIsOpen s = false → s.connectionError = none → s.connectionPromise = none →
      getClientResult s = .error notConnectedMsg) ∧
    (clientIsOpen s = true ∨
      (clientIsOpen s = false ∧ ∃ e, s.connectionError = some e) ∨
      (clientIsOpen s = false ∧ s.connectionError = none ∧ ∃ p, s.connectionPromise = some p) ∨
      (clientIsOpen s = false ∧ s.connectionError = none ∧ s.connectionPromise = none)) ∧
    (∀ e, unavailableMsg e ≠ connectingMsg ∧ unavailableMsg e ≠ notConnectedMsg) ∧
    connectingMsg ≠ notConnectedMsg := by
  refine ⟨?_, ?_, ?_, ?_, ?_, ?_, ?_⟩
  · intro c hc hopen
    simp [getClientResult, hc, hopen]
  · intro hno e he
    cases hcl : s.client with
    | none => simp [getClientResult, hcl, getClientFallback, he]
    | some c =>
      have hco : c.isOpen = false := by simpa [clientIsOpen, hcl] using hno
      simp [getClientResult, hcl, hco, getClientFallback, he]
  · intro hno herr p hp
    cases hcl : s.client with
    | none => simp [getClientResult, hcl, getClientFallback, herr, hp]
    | some c =>
      have hco : c.isOpen = false := by simpa [clientIsOpen, hcl] using hno
      simp [getClientResult, hcl, hco, getClientFallback, herr, hp]
  · intro hno herr hp
    cases hcl : s.client with
    | none => simp [getClientResult, hcl, getClientFallback, herr, hp]
    | some c =>
      have hco : c.isOpen = false := by simpa [clientIsOpen, hcl] using hno
      simp [getClientResult, hcl, hco, getClientFallback, herr, hp]
  · cases hop : clientIsOpen s with
    | true => exact Or.inl rfl
    | false =>
      cases herr : s.connectionError with
      | some e => exact Or.inr (Or.inl ⟨rfl, e, rfl⟩)
      | none =>
        cases hp : s.connectionPromise with
        | some p => exact Or.inr (Or.inr (Or.inl ⟨rfl, rfl, p, rfl⟩))
        | none => exact Or.inr (Or.inr (Or.inr ⟨rfl, rfl, rfl⟩))
  · intro e
    exact ⟨unavailableMsg_ne_connectingMsg e, unavailableMsg_ne_notConnectedMsg e⟩
  · decide

theorem getClient_lifecycle_priority_witness :
    getClientResult ⟨some ⟨1, true⟩, none, none⟩ = .ok ⟨1, true⟩ ∧
    getClientResult ⟨none, some 4, some "connect ECONNREFUSED"⟩ =
      .error (unavailableMsg "connect ECONNREFUSED") ∧
    getClientResult ⟨none, some 4, none⟩ = .error connectingMsg ∧
    getClientResult ⟨none, none, none⟩ = .error notConnectedMsg :=
  ⟨(getClient_lifecycle_priority ⟨some ⟨1, true⟩, none, none⟩).1 ⟨1, true⟩ rfl rfl,
   (getClient_lifecycle_priority ⟨none, some 4, some "connect ECONNREFUSED"⟩).2.1 rfl
     "connect ECONNREFUSED" rfl,
   (getClient_lifecycle_priority ⟨none, some 4, none⟩).2.2.1 rfl rfl 4 rfl,
   (getClient_lifecycle_priority ⟨none, none, none⟩).2.2.2.1 rfl rfl rfl⟩

theorem clientIsOpen_update (s : MState) (p : Nat) :
    clientIsOpen { s with connectionError := none, connectionPromise := some p } =
      clientIsOpen s := rfl

/-- C2: `connect` is idempotent and coalescing.  With an open active client
it returns the immediately-resolved outcome and changes no state (and in
particular starts no new attempt); with a pending attempt and no open
client it returns exactly that pending promise and changes no state; and a
second `connect` issued right after a fresh attempt began (before it
settles) observes that very attempt's promise, so only one handshake is
initiated. -/
theorem connect_idempotent_coalescing (s : MState) (freshPid : Nat) :
    (clientIsOpen s = true → connectCall s freshPid = (.resolvedNow, s)) ∧
    (clientIsOpen s = false → ∀ pid, s.connectionPromise = some pid →
      connectCall s freshPid = (.pendingShared pid, s)) ∧
    (clientIsOpen s = false → s.connectionPromise = none → ∀ p2,
      connectCall (connectCall s freshPid).2 p2 =
        (.pendingShared freshPid, (connectCall s freshPid).2)) := by
  refine ⟨?_, ?_, ?_⟩
  · intro hop
    simp [connectCall, hop]
  · intro hop pid hp
    simp [connectCall, hop, hp]
  · intro hop hp p2
    simp [connectCall, clientIsOpen_update, hop, hp]

theorem connect_idempotent_coalescing_witness :
    connectCall ⟨some ⟨1, true⟩, none, none⟩ 7 = (.resolvedNow, ⟨some ⟨1, true⟩, none, none⟩) ∧
    connectCall ⟨none, some 3, none⟩ 7 = (.pendingShared 3, ⟨none, some 3, none⟩) ∧
    connectCall (connectCall ⟨none, none, some "boom"⟩ 5).2 9 =
      (.pendingShared 5, (connectCall ⟨none, none, some "boom"⟩ 5).2) :=
  ⟨(connect_idempotent_coalescing ⟨some ⟨1, true⟩, none, none⟩ 7).1 rfl,
   (connect_idempotent_coalescing ⟨none, some 3, none⟩ 7).2.1 rfl 3 rfl,
   (connect_idempotent_coalescing ⟨none, none, some "boom"⟩ 5).2.2 rfl rfl 9⟩

/-- C3: the last-error slot across every transition.  It is cleared when a
fresh attempt begins and when a handshake succeeds; it is set to the
failure when a handshake fails and when an `error` event fires; on an `end`
event it is set to the generic closed error exactly when a client was
previously active and no error is recorded, a pre-existing error is kept,
and with no previously active client it is left unchanged. -/
theorem lastError_invariant_transitions :
    (∀ s freshPid, clientIsOpen s = false → s.connectionPromise = none →
      ((connectCall s freshPid).2).connectionError = none) ∧
    (∀ s c pid, (onConnectSuccess s c pid).connectionError = none) ∧
    (∀ s e pid, (onConnectFailure s e pid).connectionError = some e) ∧
    (∀ s e, (onErrorEvent s e).connectionError = some e) ∧
    (∀ s pid, s.client.isSome = true → s.connectionError = none →
      (onEndEvent s pid).connectionError = some connectionClosedMsg) ∧
    (∀ s pid e, s.connectionError = some e → (onEndEvent s pid).connectionError = some e) ∧
    (∀ s pid, s.client = none → (onEndEvent s pid).connectionError = s.connectionError) := by
  refine ⟨?_, ?_, ?_, ?_, ?_, ?_, ?_⟩
  · intro s freshPid hop hp
    simp [connectCall, hop, hp]
  · intro s c pid
    simp [onConnectSuccess, clearPromiseIfOwn]
    split <;> simp
  · intro s e pid
    simp [onConnectFailure, clearPromiseIfOwn]
    split <;> simp
  · intro s e
    simp [onErrorEvent]
  · intro s pid hsome herr
    simp [onEndEvent, clearPromiseIfOwn, hsome, herr]
    split <;> simp [herr]
  · intro s pid e herr
    simp [onEndEvent, clearPromiseIfOwn, herr]
    split <;> simp [herr]
  · intro s pid hcl
    simp [onEndEvent, clearPromiseIfOwn, hcl]
    split <;> simp

theorem lastError_invariant_transitions_witness :
    ((connectCall ⟨none, none, some "old failure"⟩ 2).2).connectionError = none ∧
    (onConnectSuccess ⟨none, some 2, some "old failure"⟩ ⟨1, true⟩ 2).connectionError = none ∧
    (onConnectFailure ⟨none, some 2, none⟩ "refused" 2).connectionError = some "refused" ∧
    (onErrorEvent ⟨some ⟨1, true⟩, none, none⟩ "socket error").connectionError =
      some "socket error" ∧
    (onEndEvent ⟨some ⟨1, true⟩, none, none⟩ 2).connectionError = some connectionClosedMsg ∧
    (onEndEvent ⟨some ⟨1, true⟩, none, some "socket error"⟩ 2).connectionError =
      some "socket error" ∧
    (onEndEvent ⟨none, none, none⟩ 2).connectionError = none :=
  ⟨lastError_invariant_transitions.1 ⟨none, none, some "old failure"⟩ 2 rfl rfl,
   lastError_invariant_transitions.2.1 ⟨none, some 2, some "old failure"⟩ ⟨1, true⟩ 2,
   lastError_invariant_transitions.2.2.1 ⟨none, some 2, none⟩ "refused" 2,
   lastError_invariant_transitions.2.2.2.1 ⟨some ⟨1, true⟩, none, none⟩ "socket error",
   lastError_invariant_transitions.2.2.2.2.1 ⟨some ⟨1, true⟩, none, none⟩ 2 rfl rfl,
   lastError_invariant_transitions.2.2.2.2.2.1 ⟨some ⟨1, true⟩, none, some "socket error"⟩ 2
     "socket error" rfl,
   lastError_invariant_transitions.2.2.2.2.2.2 ⟨none, none, none⟩ 2 rfl⟩

/-- C4: evaluation of `disconnect` at a state with an open client when the
quit operation fails with a message not containing "disconnection".  The
returned promise rejects with that failure and the client is cleared, but
the `finally` block then clears `connectionError` again, so the failure is
NOT remembered as the last error and a subsequent `getClient` throws the
"not connected" error instead of "connection unavailable". -/
theorem disconnect_quit_failure_clears_lastError :
    disconnectCall ⟨some ⟨1, true⟩, none, none⟩ (.error "Something went wrong - quit failed") =
      (.error "Something went wrong - quit failed", ⟨none, none, none⟩) ∧
    getClientResult ⟨none, none, none⟩ = .error notConnectedMsg := by
  exact ⟨rfl, rfl⟩

/-- C5: for every state with no open client, `disconnect` resolves
successfully and afterwards the client, the pending promise and the last
error are all cleared, whatever the last error previously was. -/
theorem disconnect_noop_when_not_open (s : MState) (q : Except String Unit)
    (h : clientIsOpen s = false) :
    disconnectCall s q = (.ok (), ⟨none, none, none⟩) := by
  simp [disconnectCall, h]

theorem disconnect_noop_when_not_open_witness :
    disconnectCall ⟨some ⟨3, false⟩, some 9, some "earlier connect failed"⟩ (.error "x") =
      (.ok (), ⟨none, none, none⟩) :=
  disconnect_noop_when_not_open ⟨some ⟨3, false⟩, some 9, some "earlier connect failed"⟩
    (.error "x") rfl

/-- C9: `getClient` is a pure read: the state after a call is the state
before it, component by component, whether the call returned the client or
threw; no transition to the pending-attempt slot ever happens. -/
theorem getClient_pure_read (s : MState) :
    (getClientCall s).2.client = s.client ∧
    (getClientCall s).2.connectionPromise = s.connectionPromise ∧
    (getClientCall s).2.connectionError = s.connectionError :=
  ⟨rfl, rfl, rfl⟩

/-!
The structured-value codec of `setJsonImpl` / `getJsonImpl`.

The JavaScript value space accepted by `JSON.stringify` and produced by
`JSON.parse` is embedded as the mutual inductive `JsonValue` (objects,
arrays, strings, integer numbers, booleans, null; floating-point numbers
are outside the embedding).  Strings, including object keys, are carried as
`List Char`.  `strOfVal` is the serializer (`JSON.stringify` on this value
space: minimal separators, double-quoted strings with backslash escapes)
and `parseVal` the fuel-indexed recursive-descent deserializer
(`JSON.parse` on the serializer's image; it signals malformed input by
returning `none`).
-/

mutual
inductive JsonValue : Type where
  | null : JsonValue
  | bool : Bool → JsonValue
  | num : Int → JsonValue
  | str : List Char → JsonValue
  | arr : JsonArr → JsonValue
  | obj : JsonObj → JsonValue
inductive JsonArr : Type where
  | nil : JsonArr
  | cons : JsonValue → JsonArr → JsonArr
inductive JsonObj : Type where
  | nil : JsonObj
  | cons : List Char → JsonValue → JsonObj → JsonObj
end

/-- The digit character for a digit value below ten. -/
def digitChar (d : Nat) : Char := Char.ofNat (48 + d)

/-- The numeric value of a digit character. -/
def digitVal (c : Char) : Nat := c.toNat - 48

/-- Accumulator pass peeling decimal digits from the least significant end;
the first argument is fuel making the recursion structural. -/
def natCharsAux : Nat → Nat → List Char → List Char
  | 0, _, acc => acc
  | _ + 1, 0, acc => acc
  | fuel + 1, m, acc => natCharsAux fuel (m / 10) (digitChar (m % 10) :: acc)

/-- Decimal representation of a natural number. -/
def natToChars (m : Nat) : List Char :=
  if m = 0 then ['0'] else natCharsAux m m []

/-- Decimal representation of an integer, `-` prefixed when negative. -/
def intToChars : Int → List Char
  | .ofNat m => natToChars m
  | .negSucc m => '-' :: natToChars (m + 1)

/-- Escaping of a single character inside a JSON string literal. -/
def escChar (c : Char) : List Char :=
  if c = '\"' then ['\\', '\"']
  else if c = '\\' then ['\\', '\\']
  else if c = '\n' then ['\\', 'n']
  else if c = '\t' then ['\\', 't']
  else if c = '\r' then ['\\', 'r']
  else [c]

/-- Escaping of the body of a JSON string literal. -/
def escString : List Char → List Char
  | [] => []
  | c :: cs => escChar c ++ escString cs

/-- A double-quoted, escaped JSON string literal. -/
def quoteString (sch : List Char) : List Char :=
  '\"' :: (escString sch ++ ['\"'])

mutual
/-- Serialization of a JSON value (the shape of `JSON.stringify`). -/
def strOfVal : JsonValue → List Char
  | .null => "null".toList
  | .bool true => "true".toList
  | .bool false => "false".toList
  | .num n => intToChars n
  | .str sch => quoteString sch
  | .arr .nil => ['[', ']']
  | .arr (.cons v a) => '[' :: ((strOfVal v ++ strOfArrTl a) ++ [']'])
  | .obj .nil => ['\x7b', '\x7d']
  | .obj (.cons k v o) =>
    '\x7b' :: ((quoteString k ++ ':' :: (strOfVal v ++ strOfObjTl o)) ++ ['\x7d'])
/-- Comma-prefixed serialization of the remaining array elements. -/
def strOfArrTl : JsonArr → List Char
  | .nil => []
  | .cons v a => ',' :: (strOfVal v ++ strOfArrTl a)
/-- Comma-prefixed serialization of the remaining object entries. -/
def strOfObjTl : JsonObj → List Char
  | .nil => []
  | .cons k v o => ',' :: (quoteString k ++ ':' :: (strOfVal v ++ strOfObjTl o))
end

mutual
/-- Structural size of a JSON value, used as the parser fuel bound. -/
def sizeV : JsonValue → Nat
  | .null => 1
  | .bool _ => 1
  | .num _ => 1
  | .str _ => 1
  | .arr a => 1 + sizeA a
  | .obj o => 1 + sizeO o
/-- Structural size of the elements of a JSON array. -/
def sizeA : JsonArr → Nat
  | .nil => 1
  | .cons v a => sizeV v + sizeA a
/-- Structural size of the entries of a JSON object. -/
def sizeO : JsonObj → Nat
  | .nil => 1
  | .cons _ v o => sizeV v + sizeO o
end

/-- Consume an expected literal character sequence. -/
def expectChars : List Char → List Char → Option (List Char)
  | [], cs => some cs
  | _ :: _, [] => none
  | p :: ps, c :: cs => if c = p then expectChars ps cs else none

/-- Unescaping of a backslash escape inside a JSON string literal. -/
def unescChar (e : Char) : Option Char :=
  if e = '\"' then some '\"'
  else if e = '\\' then some '\\'
  else if e = 'n' then some '\n'
  else if e = 't' then some '\t'
  else if e = 'r' then some '\r'
  else if e = '/' then some '/'
  else none

/-- Parse the body of a JSON string literal after the opening quote,
returning the unescaped characters and the remainder after the closing
quote. -/
def parseStrBody : List Char → Option (List Char × List Char)
  | [] => none
  | c :: cs =>
    if c = '\"' then some ([], cs)
    else if c = '\\' then
      match cs with
      | [] => none
      | e :: cs2 =>
        match unescChar e, parseStrBody cs2 with
        | some u, some (sch, rest) => some (u :: sch, rest)
        | _, _ => none
    else
      match parseStrBody cs with
      | some (sch, rest) => some (c :: sch, rest)
      | none => none

/-- Consume a maximal run of decimal digits, accumulating their value. -/
def parseDigitsAux (acc : Nat) : List Char → Nat × List Char
  | [] => (acc, [])
  | c :: cs => if c.isDigit then parseDigitsAux (acc * 10 + digitVal c) cs else (acc, c :: cs)

/-- Parse the digits following a leading minus sign. -/
def parseNeg (cs : List Char) : Option (JsonValue × List Char) :=
  match cs with
  | [] => none
  | c2 :: _ =>
    if c2.isDigit then
      some (.num (-(Int.ofNat (parseDigitsAux 0 cs).1)), (parseDigitsAux 0 cs).2)
    else none

mutual
/-- Fuel-indexed recursive-descent parser for one JSON value, returning the
value and the unconsumed remainder. -/
def parseVal : Nat → List Char → Option (JsonValue × List Char)
  | 0, _ => none
  | _ + 1, [] => none
  | fuel + 1, c :: cs =>
    if c = 'n' then (expectChars ['u', 'l', 'l'] cs).map (fun rest => (.null, rest))
    else if c = 't' then (expectChars ['r', 'u', 'e'] cs).map (fun rest => (.bool true, rest))
    else if c = 'f' then (expectChars ['a', 'l', 's', 'e'] cs).map (fun rest => (.bool false, rest))
    else if c = '\"' then (parseStrBody cs).map (fun p => (.str p.1, p.2))
    else if c = '[' then (parseItems fuel cs).map (fun p => (.arr p.1, p.2))
    else if c = '\x7b' then (parseFields fuel cs).map (fun p => (.obj p.1, p.2))
    else if c = '-' then parseNeg cs
    else if c.isDigit then
      some (.num (Int.ofNat (parseDigitsAux 0 (c :: cs)).1), (parseDigitsAux 0 (c :: cs)).2)
    else none
/-- Parse the elements of a JSON array after the opening bracket, including
the empty-array case and the closing bracket. -/
def parseItems : Nat → List Char → Option (JsonArr × List Char)
  | 0, _ => none
  | _ + 1, [] => none
  | fuel + 1, c :: cs =>
    if c = ']' then some (.nil, cs)
    else
      (parseVal fuel (c :: cs)).bind (fun p =>
        match p.2 with
        | [] => none
        | r :: rest2 =>
          if r = ',' then (parseItems fuel rest2).map (fun q => (.cons p.1 q.1, q.2))
          else if r = ']' then some (.cons p.1 .nil, rest2)
          else none)
/-- Parse the entries of a JSON object after the opening brace, including
the empty-object case and the closing brace. -/
def parseFields : Nat → List Char → Option (JsonObj × List Char)
  | 0, _ => none
  | _ + 1, [] => none
  | fuel + 1, c :: cs =>
    if c = '\x7d' then some (.nil, cs)
    else if c = '\"' then
      (parseStrBody cs).bind (fun pk =>
        match pk.2 with
        | [] => none
        | r :: rest2 =>
          if r = ':' then
            (parseVal fuel rest2).bind (fun pv =>
              match pv.2 with
              | [] => none
              | r2 :: rest4 =>
                if r2 = ',' then
                  (parseFields fuel rest4).map (fun q => (.cons pk.1 pv.1 q.1, q.2))
                else if r2 = '\x7d' then some (.cons pk.1 pv.1 .nil, rest4)
                else none)
          else none)
    else none
end

/-- Parse a complete JSON text: one value consuming the entire input
(the shape of `JSON.parse`, which throws on any malformed input; failure is
the `none` result). -/
def parseJson (cs : List Char) : Option JsonValue :=
  match parseVal (cs.length + 1) cs with
  | some (v, []) => some v
  | _ => none

/-- The remainder following a serialized value never starts with a digit,
so digit runs of serialized numbers end where the serializer ended them. -/
def digitFree : List Char → Prop
  | [] => True
  | c :: _ => c.isDigit = false

theorem digitChar_facts : ∀ d, d < 10 →
    (digitChar d).isDigit = true ∧ digitChar d ≠ 'n' ∧ digitChar d ≠ 't' ∧
    digitChar d ≠ 'f' ∧ digitChar d ≠ '\"' ∧ digitChar d ≠ '[' ∧
    digitChar d ≠ '\x7b' ∧ digitChar d ≠ '-' ∧ digitChar d ≠ ']' := by decide

theorem digitVal_digitChar : ∀ d, d < 10 → digitVal (digitChar d) = d := by decide

theorem natCharsAux_eq (fuel : Nat) :
    ∀ m acc, m ≤ fuel →
      natCharsAux fuel m acc = (Nat.digits 10 m).reverse.map digitChar ++ acc := by
  induction fuel with
  | zero =>
    intro m acc hm
    interval_cases m
    simp [natCharsAux]
  | succ fuel ih =>
    intro m acc hm
    cases m with
    | zero => simp [natCharsAux]
    | succ k =>
      have hdiv : (k + 1) / 10 ≤ fuel := by
        have := Nat.div_lt_self (Nat.succ_pos k) (by norm_num : 1 < 10)
        omega
      have hdig := Nat.digits_def' (by norm_num : 1 < 10) (Nat.succ_pos k)
      rw [show natCharsAux (fuel + 1) (k + 1) acc =
            natCharsAux fuel ((k + 1) / 10) (digitChar ((k + 1) % 10) :: acc) from rfl,
          ih _ _ hdiv, hdig]
      simp [List.append_assoc]

theorem parseDigitsAux_spec (ds : List Nat) :
    ∀ acc rest, (∀ d ∈ ds, d < 10) → digitFree rest →
      parseDigitsAux acc (ds.map digitChar ++ rest) =
        (ds.foldl (fun a d => a * 10 + d) acc, rest) := by
  induction ds with
  | nil =>
    intro acc rest _ hr
    cases rest with
    | nil => rfl
    | cons c cs =>
      have hc : c.isDigit = false := hr
      simp [parseDigitsAux, hc]
  | cons d ds ih =>
    intro acc rest hd hr
    have h10 : d < 10 := hd d (by simp)
    have h1 : (digitChar d).isDigit = true := (digitChar_facts d h10).1
    have h2 : digitVal (digitChar d) = d := digitVal_digitChar d h10
    simp only [List.map_cons, List.cons_append, parseDigitsAux, h1, h2, if_true,
      List.append_eq]
    rw [ih _ _ (fun x hx => hd x (by simp [hx])) hr]
    simp

theorem foldl_reverse_digits (m : Nat) :
    (Nat.digits 10 m).reverse.foldl (fun a d => a * 10 + d) 0 = m := by
  have hfr : ∀ l : List Nat, l.foldr (fun d a => a * 10 + d) 0 = Nat.ofDigits 10 l := by
    intro l
    induction l with
    | nil => simp [Nat.ofDigits_nil]
    | cons d l ih => simp [Nat.ofDigits_cons, ih]; ring
  rw [List.foldl_reverse, hfr, Nat.ofDigits_digits]

theorem natToChars_eq_map (m : Nat) (hm : m ≠ 0) :
    natToChars m = (Nat.digits 10 m).reverse.map digitChar := by
  rw [natToChars, if_neg hm, natCharsAux_eq m m [] le_rfl, List.append_nil]

theorem parseDigits_natToChars (m : Nat) (rest : List Char) (hr : digitFree rest) :
    parseDigitsAux 0 (natToChars m ++ rest) = (m, rest) := by
  by_cases hm : m = 0
  · subst hm
    have h0 : natToChars 0 = List.map digitChar [0] := by decide
    rw [h0, parseDigitsAux_spec [0] 0 rest (by decide) hr]
    rfl
  · rw [natToChars_eq_map m hm,
        parseDigitsAux_spec _ 0 rest
          (fun d hd => Nat.digits_lt_base (by norm_num) (List.mem_reverse.mp hd))
          hr,
        foldl_reverse_digits]

theorem natToChars_head (m : Nat) :
    ∃ d ds, natToChars m = digitChar d :: ds ∧ d < 10 := by
  by_cases hm : m = 0
  · subst hm
    exact ⟨0, [], by decide, by decide⟩
  · rw [natToChars_eq_map m hm]
    have hne : Nat.digits 10 m ≠ [] := Nat.digits_ne_nil_iff_ne_zero.mpr hm
    cases hrev : (Nat.digits 10 m).reverse with
    | nil => exact absurd (List.reverse_eq_nil_iff.mp hrev) hne
    | cons d ds =>
      have hdm : d ∈ Nat.digits 10 m := by
        have : d ∈ (Nat.digits 10 m).reverse := by rw [hrev]; simp
        exact List.mem_reverse.mp this
      exact ⟨d, ds.map digitChar, by simp,
        Nat.digits_lt_base (by norm_num) hdm⟩

theorem parseStrBody_escString (sch : List Char) :
    ∀ rest, parseStrBody (escString sch ++ '\"' :: rest) = some (sch, rest) := by
  induction sch with
  | nil =>
    intro rest
    rw [show escString [] ++ '\"' :: rest = '\"' :: rest from rfl, parseStrBody.eq_def]
    simp +decide
  | cons c cs ih =>
    intro rest
    rw [show escString (c :: cs) ++ '\"' :: rest =
          escChar c ++ (escString cs ++ '\"' :: rest) from by
        simp [escString, List.append_assoc]]
    by_cases h1 : c = '\"'
    · subst h1
      rw [show escChar '\"' ++ (escString cs ++ '\"' :: rest) =
            '\\' :: '\"' :: (escString cs ++ '\"' :: rest) from by
          rw [show escChar '\"' = ['\\', '\"'] from by decide]; rfl]
      rw [parseStrBody.eq_def]
      simp +decide [unescChar, ih]
    · by_cases h2 : c = '\\'
      · subst h2
        rw [show escChar '\\' ++ (escString cs ++ '\"' :: rest) =
              '\\' :: '\\' :: (escString cs ++ '\"' :: rest) from by
            rw [show escChar '\\' = ['\\', '\\'] from by decide]; rfl]
        rw [parseStrBody.eq_def]
        simp +decide [unescChar, ih]
      · by_cases h3 : c = '\n'
        · subst h3
          rw [show escChar '\n' ++ (escString cs ++ '\"' :: rest) =
                '\\' :: 'n' :: (escString cs ++ '\"' :: rest) from by
              rw [show escChar '\n' = ['\\', 'n'] from by decide]; rfl]
          rw [parseStrBody.eq_def]
          simp +decide [unescChar, ih]
        · by_cases h4 : c = '\t'
          · subst h4
            rw [show escChar '\t' ++ (escString cs ++ '\"' :: rest) =
                  '\\' :: 't' :: (escString cs ++ '\"' :: rest) from by
                rw [show escChar '\t' = ['\\', 't'] from by decide]; rfl]
            rw [parseStrBody.eq_def]
            simp +decide [unescChar, ih]
          · by_cases h5 : c = '\r'
            · subst h5
              rw [show escChar '\r' ++ (escString cs ++ '\"' :: rest) =
                    '\\' :: 'r' :: (escString cs ++ '\"' :: rest) from by
                  rw [show escChar '\r' = ['\\', 'r'] from by decide]; rfl]
              rw [parseStrBody.eq_def]
              simp +decide [unescChar, ih]
            · rw [show escChar c ++ (escString cs ++ '\"' :: rest) =
                    c :: (escString cs ++ '\"' :: rest) from by
                  rw [show escChar c = [c] from by
                    simp [escChar, h1, h2, h3, h4, h5]]; rfl]
              rw [parseStrBody.eq_def]
              simp [h1, h2, ih]

theorem one_le_sizeV (v : JsonValue) : 1 ≤ sizeV v := by
  cases v <;> simp [sizeV]

theorem one_le_sizeA (a : JsonArr) : 1 ≤ sizeA a := by
  cases a with
  | nil => simp [sizeA]
  | cons v a => have := one_le_sizeV v; simp [sizeA]; omega

theorem one_le_sizeO (o : JsonObj) : 1 ≤ sizeO o := by
  cases o with
  | nil => simp [sizeO]
  | cons k v o => have := one_le_sizeV v; simp [sizeO]; omega

theorem strOfVal_head (v : JsonValue) :
    ∃ c cs, strOfVal v = c :: cs ∧ ¬(c = ']') := by
  cases v with
  | null => exact ⟨'n', _, rfl, by decide⟩
  | bool b => cases b with
    | true => exact ⟨'t', _, rfl, by decide⟩
    | false => exact ⟨'f', _, rfl, by decide⟩
  | num n =>
    cases n with
    | ofNat m =>
      obtain ⟨d, ds, hh, hd⟩ := natToChars_head m
      exact ⟨digitChar d, ds, by simp [strOfVal, intToChars, hh],
        (digitChar_facts d hd).2.2.2.2.2.2.2.2⟩
    | negSucc m => exact ⟨'-', _, rfl, by decide⟩
  | str sch => exact ⟨'\"', _, rfl, by decide⟩
  | arr a => cases a with
    | nil => exact ⟨'[', _, rfl, by decide⟩
    | cons v1 a1 => exact ⟨'[', _, rfl, by decide⟩
  | obj o => cases o with
    | nil => exact ⟨'\x7b', _, rfl, by decide⟩
    | cons k v1 o1 => exact ⟨'\x7b', _, rfl, by decide⟩

theorem digitFree_strOfArrTl (a : JsonArr) (rest : List Char) :
    digitFree (strOfArrTl a ++ ']' :: rest) := by
  cases a with
  | nil => simp [strOfArrTl, digitFree]
  | cons v1 a1 => simp [strOfArrTl, digitFree]

theorem digitFree_strOfObjTl (o : JsonObj) (rest : List Char) :
    digitFree (strOfObjTl o ++ '\x7d' :: rest) := by
  cases o with
  | nil => simp [strOfObjTl, digitFree]
  | cons k v1 o1 => simp [strOfObjTl, digitFree]

theorem roundTrip_all : ∀ fuel,
    (∀ v rest, sizeV v ≤ fuel → digitFree rest →
      parseVal fuel (strOfVal v ++ rest) = some (v, rest)) ∧
    (∀ v a rest, sizeV v + sizeA a ≤ fuel →
      parseItems fuel (strOfVal v ++ (strOfArrTl a ++ ']' :: rest)) =
        some (.cons v a, rest)) ∧
    (∀ k v o rest, sizeV v + sizeO o ≤ fuel →
      parseFields fuel
          ('\"' :: (escString k ++ '\"' :: ':' ::
            (strOfVal v ++ (strOfObjTl o ++ '\x7d' :: rest)))) =
        some (.cons k v o, rest)) := by
  intro fuel
  induction fuel with
  | zero =>
    refine ⟨?_, ?_, ?_⟩
    · intro v rest hsz _
      exact absurd hsz (by have := one_le_sizeV v; omega)
    · intro v a rest hsz
      exact absurd hsz (by have := one_le_sizeV v; have := one_le_sizeA a; omega)
    · intro k v o rest hsz
      exact absurd hsz (by have := one_le_sizeV v; have := one_le_sizeO o; omega)
  | succ fuel ih =>
    obtain ⟨ihV, ihA, ihO⟩ := ih
    refine ⟨?_, ?_, ?_⟩
    · intro v rest hsz hdf
      cases v with
      | null =>
        rw [show strOfVal .null ++ rest = 'n' :: 'u' :: 'l' :: 'l' :: rest from rfl,
            parseVal.eq_def]
        simp +decide [expectChars]
      | bool b =>
        cases b with
        | true =>
          rw [show strOfVal (.bool true) ++ rest = 't' :: 'r' :: 'u' :: 'e' :: rest from rfl,
              parseVal.eq_def]
          simp +decide [expectChars]
        | false =>
          rw [show strOfVal (.bool false) ++ rest =
                'f' :: 'a' :: 'l' :: 's' :: 'e' :: rest from rfl,
              parseVal.eq_def]
          simp +decide [expectChars]
      | str sch =>
        rw [show strOfVal (.str sch) ++ rest =
              '\"' :: (escString sch ++ '\"' :: rest) from by
            simp [strOfVal, quoteString]]
        rw [parseVal.eq_def]
        simp +decide [parseStrBody_escString]
      | num n =>
        cases n with
        | ofNat m =>
          obtain ⟨d, ds, hh, hd10⟩ := natToChars_head m
          have hf := digitChar_facts d hd10
          rw [show strOfVal (.num (Int.ofNat m)) ++ rest =
                digitChar d :: (ds ++ rest) from by
              simp [strOfVal, intToChars, hh]]
          rw [parseVal.eq_def]
          simp +decide [hf.1, hf.2.1, hf.2.2.1, hf.2.2.2.1, hf.2.2.2.2.1,
            hf.2.2.2.2.2.1, hf.2.2.2.2.2.2.1, hf.2.2.2.2.2.2.2.1]
          rw [show digitChar d :: (ds ++ rest) = natToChars m ++ rest from by
              rw [hh]; rfl]
          rw [parseDigits_natToChars m rest hdf]
          exact ⟨rfl, rfl⟩
        | negSucc m =>
          obtain ⟨d, ds, hh, hd10⟩ := natToChars_head (m + 1)
          have hf := digitChar_facts d hd10
          rw [show strOfVal (.num (Int.negSucc m)) ++ rest =
                '-' :: (natToChars (m + 1) ++ rest) from by
              simp [strOfVal, intToChars]]
          rw [show natToChars (m + 1) ++ rest = digitChar d :: (ds ++ rest) from by
              rw [hh]; rfl]
          rw [parseVal.eq_def]
          simp +decide [parseNeg, hf.1]
          rw [show digitChar d :: (ds ++ rest) = natToChars (m + 1) ++ rest from by
              rw [hh]; rfl]
          rw [parseDigits_natToChars (m + 1) rest hdf]
          simp [Int.negSucc_eq]
      | arr a =>
        cases a with
        | nil =>
          cases fuel with
          | zero => simp [sizeV, sizeA] at hsz
          | succ f =>
            rw [show strOfVal (.arr .nil) ++ rest = '[' :: ']' :: rest from rfl,
                parseVal.eq_def]
            simp +decide [parseItems]
        | cons v1 a1 =>
          rw [show strOfVal (.arr (.cons v1 a1)) ++ rest =
                '[' :: (strOfVal v1 ++ (strOfArrTl a1 ++ ']' :: rest)) from by
              simp [strOfVal, List.append_assoc]]
          rw [parseVal.eq_def]
          have harr := ihA v1 a1 rest (by simp only [sizeV, sizeA] at hsz; omega)
          simp +decide [harr]
      | obj o =>
        cases o with
        | nil =>
          cases fuel with
          | zero => simp [sizeV, sizeO] at hsz
          | succ f =>
            rw [show strOfVal (.obj .nil) ++ rest = '\x7b' :: '\x7d' :: rest from rfl,
                parseVal.eq_def]
            simp +decide [parseFields]
        | cons k1 v1 o1 =>
          rw [show strOfVal (.obj (.cons k1 v1 o1)) ++ rest =
                '\x7b' :: ('\"' :: (escString k1 ++ '\"' :: ':' ::
                  (strOfVal v1 ++ (strOfObjTl o1 ++ '\x7d' :: rest)))) from by
              simp [strOfVal, quoteString, List.append_assoc]]
          rw [parseVal.eq_def]
          have hobj := ihO k1 v1 o1 rest (by simp only [sizeV, sizeO] at hsz; omega)
          simp +decide [hobj]
    · intro v a rest hsz
      obtain ⟨c, cs2, hv, hc⟩ := strOfVal_head v
      have h1 := ihV v (strOfArrTl a ++ ']' :: rest)
        (by have := one_le_sizeA a; omega) (digitFree_strOfArrTl a rest)
      rw [hv, List.cons_append] at h1
      rw [show strOfVal v ++ (strOfArrTl a ++ ']' :: rest) =
            c :: (cs2 ++ (strOfArrTl a ++ ']' :: rest)) from by rw [hv]; rfl]
      rw [parseItems.eq_def]
      cases a with
      | nil =>
        simp only [strOfArrTl, List.nil_append] at h1 ⊢
        simp +decide [hc, h1]
      | cons v1 a1 =>
        simp only [strOfArrTl, List.cons_append, List.append_assoc] at h1 ⊢
        have h2 := ihA v1 a1 rest
          (by simp only [sizeA] at hsz; have := one_le_sizeV v; omega)
        simp +decide [hc, h1, h2]
    · intro k v o rest hsz
      have h1 := ihV v (strOfObjTl o ++ '\x7d' :: rest)
        (by have := one_le_sizeO o; omega) (digitFree_strOfObjTl o rest)
      rw [parseFields.eq_def]
      cases o with
      | nil =>
        simp only [strOfObjTl, List.nil_append] at h1 ⊢
        simp +decide [parseStrBody_escString, h1]
      | cons k1 v1 o1 =>
        simp only [strOfObjTl, List.cons_append, List.append_assoc] at h1 ⊢
        have h2 := ihO k1 v1 o1 rest
          (by simp only [sizeO] at hsz; have := one_le_sizeV v; omega)
        simp +decide [parseStrBody_escString, h1, h2]
        simpa only [quoteString, List.cons_append, List.append_assoc,
          List.singleton_append] using h2

theorem sizes_le_lengths : ∀ n,
    (∀ v, sizeV v ≤ n → sizeV v ≤ (strOfVal v).length) ∧
    (∀ a, sizeA a ≤ n → sizeA a ≤ (strOfArrTl a).length + 1) ∧
    (∀ o, sizeO o ≤ n → sizeO o ≤ (strOfObjTl o).length + 1) := by
  intro n
  induction n with
  | zero =>
    refine ⟨?_, ?_, ?_⟩
    · intro v hv; exact absurd hv (by have := one_le_sizeV v; omega)
    · intro a ha; exact absurd ha (by have := one_le_sizeA a; omega)
    · intro o ho; exact absurd ho (by have := one_le_sizeO o; omega)
  | succ n ih =>
    obtain ⟨ihV, ihA, ihO⟩ := ih
    refine ⟨?_, ?_, ?_⟩
    · intro v hv
      cases v with
      | null => simp [sizeV, strOfVal]
      | bool b => cases b <;> simp [sizeV, strOfVal]
      | num m =>
        cases m with
        | ofNat k =>
          obtain ⟨d, ds, hh, _⟩ := natToChars_head k
          simp [sizeV, strOfVal, intToChars, hh]
        | negSucc k => simp [sizeV, strOfVal, intToChars]
      | str sch => simp [sizeV, strOfVal, quoteString]
      | arr a =>
        cases a with
        | nil => simp [sizeV, sizeA, strOfVal]
        | cons v1 a1 =>
          have hv1 : sizeV v1 ≤ n := by
            have := one_le_sizeA a1; simp only [sizeV, sizeA] at hv; omega
          have ha1 : sizeA a1 ≤ n := by
            have := one_le_sizeV v1; simp only [sizeV, sizeA] at hv; omega
          have e1 := ihV v1 hv1
          have e2 := ihA a1 ha1
          simp only [sizeV, sizeA, strOfVal, List.length_cons, List.length_append]
          omega
      | obj o =>
        cases o with
        | nil => simp [sizeV, sizeO, strOfVal]
        | cons k1 v1 o1 =>
          have hv1 : sizeV v1 ≤ n := by
            have := one_le_sizeO o1; simp only [sizeV, sizeO] at hv; omega
          have ho1 : sizeO o1 ≤ n := by
            have := one_le_sizeV v1; simp only [sizeV, sizeO] at hv; omega
          have e1 := ihV v1 hv1
          have e2 := ihO o1 ho1
          simp only [sizeV, sizeO, strOfVal, List.length_cons, List.length_append]
          omega
    · intro a ha
      cases a with
      | nil => simp [sizeA, strOfArrTl]
      | cons v1 a1 =>
        have hv1 : sizeV v1 ≤ n := by
          have := one_le_sizeA a1; simp only [sizeA] at ha; omega
        have ha1 : sizeA a1 ≤ n := by
          have := one_le_sizeV v1; simp only [sizeA] at ha; omega
        have e1 := ihV v1 hv1
        have e2 := ihA a1 ha1
        simp only [sizeA, strOfArrTl, List.length_cons, List.length_append]
        omega
    · intro o ho
      cases o with
      | nil => simp [sizeO, strOfObjTl]
      | cons k1 v1 o1 =>
        have hv1 : sizeV v1 ≤ n := by
          have := one_le_sizeO o1; simp only [sizeO] at ho; omega
        have ho1 : sizeO o1 ≤ n := by
          have := one_le_sizeV v1; simp only [sizeO] at ho; omega
        have e1 := ihV v1 hv1
        have e2 := ihO o1 ho1
        simp only [sizeO, strOfObjTl, List.length_cons, List.length_append]
        omega

theorem parseJson_strOfVal (v : JsonValue) : parseJson (strOfVal v) = some v := by
  have h1 : sizeV v ≤ (strOfVal v).length + 1 := by
    have := (sizes_le_lengths (sizeV v)).1 v le_rfl
    omega
  have h2 := (roundTrip_all ((strOfVal v).length + 1)).1 v [] h1 (by simp [digitFree])
  rw [List.append_nil] at h2
  rw [parseJson, h2]

/-!
Embedding of `setJsonImpl` / `getJsonImpl` over the underlying client's
`set` and `get` commands.  The serializer (`JSON.stringify`) throws on
non-serializable structures (circular references), so the value handed to
`setJson` is either a serializable JSON value or such a structure; the
underlying commands are asynchronous redis calls whose outcomes are
supplied by the environment, abstractly as `RedisCmds` or concretely
against the `Store` model in which `get` returns exactly the string last
written by `set`.
-/

/-- A value passed to `JSON.stringify`: either a value of its serializable
space, or a structure on which serialization throws. -/
inductive JsInput : Type where
  | json : JsonValue → JsInput
  | circular : JsInput

/-- The shape of `JSON.stringify`: total on the serializable space, throws
a TypeError on circular structures. -/
def jsStringify : JsInput → Except String (List Char)
  | .json v => .ok (strOfVal v)
  | .circular => .error "Converting circular structure to JSON"

/-- Outcomes of the underlying client's `set` and `get` commands, as
supplied by the environment: a rejection, or a reply (`set` replies with a
status string or null; `get` replies with the stored text or null for an
absent key). -/
structure RedisCmds where
  setCmd : String → List Char → Except String (Option String)
  getCmd : String → Except String (Option (List Char))

/-- The body of `setJsonImpl`: serialize, then issue `set`; the `catch`
rethrows the same error, so any failure of either step propagates
unchanged. -/
def setJsonImpl (cmds : RedisCmds) (key : String) (objectToStore : JsInput) :
    Except String (Option String) :=
  match jsStringify objectToStore with
  | .ok jsonString => cmds.setCmd key jsonString
  | .error e => .error e

/-- The body of `getJsonImpl`: issue `get` (a failure propagates — it is
outside any try/catch); a null reply means the key is absent and yields
null; otherwise parse, and a parse failure is caught and yields null. -/
def getJsonImpl (cmds : RedisCmds) (key : String) :
    Except String (Option JsonValue) :=
  match cmds.getCmd key with
  | .error e => .error e
  | .ok none => .ok none
  | .ok (some jsonString) =>
    match parseJson jsonString with
    | some v => .ok (some v)
    | none => .ok none

/-- The key-value store behind the raw `set`/`get` commands. -/
def Store : Type := List (String × List Char)

/-- The `set` command's effect on the store. -/
def storeSet (st : Store) (k : String) (val : List Char) : Store :=
  (k, val) :: st

/-- The `get` command's reply from the store. -/
def storeGet : Store → String → Option (List Char)
  | [], _ => none
  | (k2, v) :: rest, k => if k2 = k then some v else storeGet rest k

theorem storeGet_storeSet (st : Store) (k : String) (val : List Char) :
    storeGet (storeSet st k val) k = some val := by
  simp [storeGet, storeSet]

/-- `setJsonImpl` run against the store: on successful serialization the
`set` command writes the serialized text and replies OK; on a
serialization failure no `set` command is ever issued, so the store is
returned unchanged. -/
def setJsonOnStore (st : Store) (key : String) (objectToStore : JsInput) :
    Except String (Option String) × Store :=
  match jsStringify objectToStore with
  | .ok jsonString => (.ok (some "OK"), storeSet st key jsonString)
  | .error e => (.error e, st)

/-- `getJsonImpl` run against the store, whose `get` reply is
`storeGet st key`. -/
def getJsonOnStore (st : Store) (key : String) :
    Except String (Option JsonValue) :=
  match storeGet st key with
  | none => .ok none
  | some jsonString =>
    match parseJson jsonString with
    | some v => .ok (some v)
    | none => .ok none

/-- C6: round trip through the codec.  For every value of the JSON value
space (object, array, string, integer number, boolean, null) and every
key, `setJson` followed by `getJson` on the same key returns a value equal
to the one stored, in the store model where `get` returns exactly the
string last written by `set`. -/
theorem setJson_getJson_roundTrip (st : Store) (k : String) (v : JsonValue) :
    (setJsonOnStore st k (.json v)).1 = .ok (some "OK") ∧
    getJsonOnStore (setJsonOnStore st k (.json v)).2 k = .ok (some v) := by
  constructor
  · rfl
  · show getJsonOnStore (storeSet st k (strOfVal v)) k = .ok (some v)
    simp [getJsonOnStore, storeGet_storeSet, parseJson_strOfVal]

/-- C7: `getJson` never throws on data problems.  An absent key yields a
null result, stored text that fails to parse yields a null result rather
than an error, and only a failure of the underlying `get` command itself
propagates to the caller. -/
theorem getJson_soft_failures (cmds : RedisCmds) (key : String) :
    (cmds.getCmd key = .ok none → getJsonImpl cmds key = .ok none) ∧
    (∀ t, cmds.getCmd key = .ok (some t) → parseJson t = none →
      getJsonImpl cmds key = .ok none) ∧
    (∀ e, cmds.getCmd key = .error e → getJsonImpl cmds key = .error e) := by
  refine ⟨?_, ?_, ?_⟩
  · intro h; simp [getJsonImpl, h]
  · intro t h hp; simp [getJsonImpl, h, hp]
  · intro e h; simp [getJsonImpl, h]

/-- Command outcomes for concrete scenarios: `set` succeeds, `get` replies
as given. -/
def cmdsWithGet (g : Except String (Option (List Char))) : RedisCmds :=
  ⟨fun _ _ => .ok (some "OK"), fun _ => g⟩

theorem getJson_soft_failures_witness :
    getJsonImpl (cmdsWithGet (.ok none)) "k" = .ok none ∧
    getJsonImpl (cmdsWithGet (.ok (some ['\x7b']))) "k" = .ok none ∧
    getJsonImpl (cmdsWithGet (.error "The client is closed")) "k" =
      .error "The client is closed" :=
  ⟨(getJson_soft_failures (cmdsWithGet (.ok none)) "k").1 rfl,
   (getJson_soft_failures (cmdsWithGet (.ok (some ['\x7b']))) "k").2.1
     ['\x7b'] rfl rfl,
   (getJson_soft_failures (cmdsWithGet (.error "The client is closed")) "k").2.2
     "The client is closed" rfl⟩

/-- C8: `setJson` never swallows an error.  A serialization failure and a
failure of the underlying `set` command both reject with that same error
unchanged, and when both steps succeed the result is exactly the `set`
command's reply. -/
theorem setJson_error_propagation (cmds : RedisCmds) (key : String) (v : JsInput) :
    (∀ e, jsStringify v = .error e → setJsonImpl cmds key v = .error e) ∧
    (∀ s e, jsStringify v = .ok s → cmds.setCmd key s = .error e →
      setJsonImpl cmds key v = .error e) ∧
    (∀ s r, jsStringify v = .ok s → cmds.setCmd key s = .ok r →
      setJsonImpl cmds key v = .ok r) := by
  refine ⟨?_, ?_, ?_⟩
  · intro e h; simp [setJsonImpl, h]
  · intro s e h hs; simp [setJsonImpl, h, hs]
  · intro s r h hs; simp [setJsonImpl, h, hs]

/-- Command outcomes where the `set` command rejects. -/
def cmdsSetFail : RedisCmds :=
  ⟨fun _ _ => .error "The client is closed", fun _ => .ok none⟩

/-- Command outcomes where the `set` command succeeds with an OK reply. -/
def cmdsSetOk : RedisCmds :=
  ⟨fun _ _ => .ok (some "OK"), fun _ => .ok none⟩

theorem setJson_error_propagation_witness :
    setJsonImpl cmdsSetOk "k" .circular =
      .error "Converting circular structure to JSON" ∧
    setJsonImpl cmdsSetFail "k" (.json .null) = .error "The client is closed" ∧
    setJsonImpl cmdsSetOk "k" (.json .null) = .ok (some "OK") :=
  ⟨(setJson_error_propagation cmdsSetOk "k" .circular).1
     "Converting circular structure to JSON" rfl,
   (setJson_error_propagation cmdsSetFail "k" (.json .null)).2.1
     (strOfVal .null) "The client is closed" rfl rfl,
   (setJson_error_propagation cmdsSetOk "k" (.json .null)).2.2
     (strOfVal .null) (some "OK") rfl rfl⟩

/-- C10: `setJson` is atomic with respect to serialization failure.  When
serialization throws, the call rejects with that error and the underlying
`set` command is never issued: the store is unchanged, so every key reads
the same before and after. -/
theorem setJson_serialization_failure_atomic (st : Store) (k : String)
    (v : JsInput) (e : String) (h : jsStringify v = .error e) :
    setJsonOnStore st k v = (.error e, st) ∧
    (∀ k2, storeGet (setJsonOnStore st k v).2 k2 = storeGet st k2) := by
  have hmain : setJsonOnStore st k v = (.error e, st) := by
    simp [setJsonOnStore, h]
  exact ⟨hmain, fun k2 => by rw [hmain]⟩

theorem setJson_serialization_failure_atomic_witness :
    setJsonOnStore [] "k" .circular =
      (.error "Converting circular structure to JSON", []) ∧
    (∀ k2, storeGet (setJsonOnStore [] "k" .circular).2 k2 = storeGet [] k2) :=
  setJson_serialization_failure_atomic [] "k" .circular
    "Converting circular structure to JSON" rfl

end RedisSingleton
